import Mathlib

/-!
Verification of the core logic of the `next-netlify-starter` stock-charting
repository: the client-side OHLCV aggregator (`aggregateData` in
`src/pages/index.js`, with the unsorted variant from `src/unnamed/part_003`)
and the server-side data proxy (`handler` in `src/pages/api/stockData.js`).

Conventions of the shallow embedding:
* JavaScript numbers that hold prices/volumes are modelled as `ℚ`; epoch
  timestamps are modelled as `Int` seconds (in this application `item.time`
  is always a whole number of seconds, being a parsed calendar date).
* JavaScript `Date` arithmetic is modelled through the ECMAScript day-number
  semantics with the clock in UTC (the code calls the local-time accessors
  `getDay`/`getDate`/`getFullYear`/`getMonth`/`setDate` and the UTC-based
  `toISOString`; the model assumes the process runs with a UTC clock, which
  is the deployment default and the reading the specification takes).
* The proxy's `Map` cache is modelled as an insertion-ordered association
  list, which is exactly the iteration-order contract of a JS `Map`.
-/

namespace StockChart

/-! ## Calendar model (ECMAScript `Date` day-number arithmetic)

`daysFromCivil y m d` is the number of days since 1970-01-01 of the civil
date `(y, m, d)` (month `1..12`), the function ECMAScript calls
`MakeDay`.  `civilFromDays` is its inverse (ECMAScript's
`YearFromTime`/`MonthFromTime`/`DateFromTime` bundle); it is implemented
with the standard era-based integer algorithm and *proved* below to be a
right inverse of `daysFromCivil` producing in-range months and days, which
is the defining property of the ECMAScript accessors. -/

/-- Days since the epoch of the civil date `(y, m, d)`, months `1..12`,
using the proleptic Gregorian calendar (era-based closed form). -/
def daysFromCivil (y m d : Int) : Int :=
  let y' := y - (if m ≤ 2 then 1 else 0)
  let era := y' / 400
  let yoe := y' - era * 400
  let doy := (153 * (m + (if 2 < m then -3 else 9)) + 2) / 5 + d - 1
  let doe := yoe * 365 + yoe / 4 - yoe / 100 + doy
  era * 146097 + doe - 719468

/-- Day of the 400-year era: `(z + 719468) mod 146097`. -/
def doeOf (z : Int) : Int := (z + 719468) % 146097

/-- Year of the era (`0..399`) of a day of the era. -/
def yoeOfDoe (doe : Int) : Int :=
  (doe - doe / 1460 + doe / 36524 - doe / 146096) / 365

/-- Day of the (March-based) year of a day of the era. -/
def doyOfDoe (doe : Int) : Int :=
  doe - (365 * yoeOfDoe doe + yoeOfDoe doe / 4 - yoeOfDoe doe / 100)

/-- Inverse of `daysFromCivil`: the civil date `(year, month, day)` of a
day number. -/
def civilFromDays (z : Int) : Int × Int × Int :=
  let era := (z + 719468) / 146097
  let doe := doeOf z
  let yoe := yoeOfDoe doe
  let doy := doyOfDoe doe
  let mp := (5 * doy + 2) / 153
  let d := doy - (153 * mp + 2) / 5 + 1
  let m := mp + (if mp < 10 then 3 else -9)
  let y := yoe + era * 400 + (if m ≤ 2 then 1 else 0)
  (y, m, d)

/-- ECMAScript `WeekDay(Day(t))`: day of week with Sunday = 0
(day 0, 1970-01-01, was a Thursday = 4). -/
def jsGetDay (days : Int) : Int := (days + 4) % 7


/-! ## ISO-8601 date strings (`Date.prototype.toISOString`, date part) -/

/-- Zero left-padding, `padStart(w, '0')`, on a decimal string. -/
def padZeros (w : Nat) (s : String) : String :=
  String.mk (List.replicate (w - s.length) '0') ++ s

/-- The year field of `toISOString`: four digits for years `0..9999`,
the expanded six-digit signed form otherwise. -/
def isoYearStr (y : Int) : String :=
  if 0 ≤ y ∧ y ≤ 9999 then padZeros 4 (toString y.toNat)
  else if y < 0 then "-" ++ padZeros 6 (toString (-y).toNat)
  else "+" ++ padZeros 6 (toString y.toNat)

/-- The `toISOString().slice(0, 10)` rendering of an instant lying on day number `n`:
the `YYYY-MM-DD` rendering of `civilFromDays n`. -/
def isoDateOfDays (n : Int) : String :=
  let c := civilFromDays n
  isoYearStr c.1 ++ "-" ++ padZeros 2 (toString c.2.1.toNat) ++ "-" ++
    padZeros 2 (toString c.2.2.toNat)

/-! ## Bucket keys of the aggregator (`src/pages/index.js`, lines 57–65)

`periodKeyWeekly` embeds

```js
const date = new Date(item.time * 1000);
const startOfWeek = new Date(date.setDate(date.getDate() - date.getDay()));
periodKey = startOfWeek.toISOString().slice(0, 10);
```

`item.time` is epoch seconds, so the instant lies on day number
`⌊time / 86400⌋`; `setDate(n)` re-anchors to `MakeDay(year, month, n)`
keeping the time of day (which `slice(0, 10)` then discards); `getDate()`
and `getDay()` are evaluated before `setDate` mutates the date. -/

/-- Weekly bucket key of a bar time (epoch seconds). -/
def periodKeyWeekly (t : Int) : String :=
  isoDateOfDays (daysFromCivil (civilFromDays (t / 86400)).1
    (civilFromDays (t / 86400)).2.1
    ((civilFromDays (t / 86400)).2.2 - jsGetDay (t / 86400)))

/-- Monthly bucket key of a bar time (epoch seconds): embeds
`` `${date.getFullYear()}-${(date.getMonth() + 1).toString().padStart(2, '0')}` ``. -/
def periodKeyMonthly (t : Int) : String :=
  toString (civilFromDays (t / 86400)).1 ++ "-" ++
    padZeros 2 (toString (civilFromDays (t / 86400)).2.1.toNat)

/-- The Sunday on or before day number `n` (what the weekly key of the
code actually lands on). -/
def sundayOfWeek (n : Int) : Int := n - jsGetDay n

/-- The Monday on or before day number `n` (the ISO week start named by
the specification). -/
def mondayOfWeek (n : Int) : Int := n - (n + 3) % 7

/-! ## The aggregator (`aggregateData`, `src/pages/index.js` lines 50–85) -/

/-- An OHLCV bar as the chart code uses it.  `open` is a Lean keyword, so
the field is called `open'`. -/
structure Bar where
  time : Int
  open' : ℚ
  high : ℚ
  low : ℚ
  close : ℚ
  volume : ℚ
deriving DecidableEq, Repr, Inhabited

/-- Aggregation interval selected in the UI. -/
inductive Interval where
  | daily
  | weekly
  | monthly
deriving DecidableEq, Repr

/-- The bucket key a bar is assigned to (`daily` never reaches the key
computation; the branch is present only to make the function total). -/
def periodKey (interval : Interval) (b : Bar) : String :=
  match interval with
  | .weekly => periodKeyWeekly b.time
  | .monthly => periodKeyMonthly b.time
  | .daily => ""

/-- The fresh bucket created on the first bar of a key. -/
def initBucket (item : Bar) : Bar :=
  { time := item.time, open' := item.open', high := item.high,
    low := item.low, close := item.close, volume := item.volume }

/-- Folding one more bar into an existing bucket (the `else` branch of the
`periodMap` update). -/
def mergeBucket (acc item : Bar) : Bar :=
  { acc with
    high := max acc.high item.high
    low := min acc.low item.low
    close := item.close
    volume := acc.volume + item.volume }

/-- In-place update of the value at the first occurrence of a key in an
association list (JS object property assignment). -/
def updateAssoc (m : List (String × Bar)) (k : String) (f : Bar → Bar) :
    List (String × Bar) :=
  match m with
  | [] => []
  | (k', b) :: rest =>
    if k' = k then (k', f b) :: rest else (k', b) :: updateAssoc rest k f

/-- One step of the `data.forEach` fold over `periodMap`.  A JS object
with non-numeric string keys enumerates its properties in insertion
order, so the map is an insertion-ordered association list. -/
def stepBar (interval : Interval) (m : List (String × Bar)) (item : Bar) :
    List (String × Bar) :=
  match m.lookup (periodKey interval item) with
  | none => m ++ [(periodKey interval item, initBucket item)]
  | some _ => updateAssoc m (periodKey interval item) (fun b => mergeBucket b item)

/-- The comparator `(a, b) => a.time - b.time` as a sorting relation. -/
def timeLE (a b : Bar) : Prop := a.time ≤ b.time

instance : DecidableRel timeLE := fun a b => Int.decLe a.time b.time

instance : IsTotal Bar timeLE := ⟨fun a b => Int.le_total a.time b.time⟩

instance : IsTrans Bar timeLE := ⟨fun _ _ _ h h' => Int.le_trans h h'⟩

/-- The `aggregateData` of `src/pages/index.js`: identity for `daily`,
otherwise fold into `periodMap` and return
`Object.values(periodMap).sort((a, b) => a.time - b.time)`.
`Array.prototype.sort` with this comparator is a stable sort by `time`,
which is what `List.insertionSort timeLE` computes. -/
def aggregateData (data : List Bar) (interval : Interval) : List Bar :=
  if interval = .daily then data
  else ((data.foldl (stepBar interval) []).map Prod.snd).insertionSort timeLE

/-- The `aggregateData` of the `src/unnamed/part_003` variant, identical
except that the buckets are emitted by `for (const key in periodMap)`
in key-insertion order, with no sort. -/
def aggregateDataPart003 (data : List Bar) (interval : Interval) : List Bar :=
  if interval = .daily then data
  else (data.foldl (stepBar interval) []).map Prod.snd

/-- The intended content of a bucket, computed in one pass over the list
of bars assigned to its key (in input order): `time` and `open` of the
first bar, running max/min of `high`/`low`, `close` of the last bar,
running sum of `volume`. -/
def specBucket : List Bar → Bar
  | [] => default
  | b :: rest =>
    { time := b.time
      open' := b.open'
      high := rest.foldl (fun h x => max h x.high) b.high
      low := rest.foldl (fun l x => min l x.low) b.low
      close := (rest.getLastD b).close
      volume := rest.foldl (fun v x => v + x.volume) b.volume }

/-- The bars of `data` assigned to bucket key `k`, in input order. -/
def groupOf (interval : Interval) (data : List Bar) (k : String) : List Bar :=
  data.filter (fun b => periodKey interval b == k)

/-! ## The data proxy (`src/pages/api/stockData.js`)

The handler is modelled as a pure function of the request, the outcome of
the single upstream call it would make, and the current cache, returning
the response, the new cache, and whether the upstream fetch was issued. -/

/-- One element of the proxy's processed output array. -/
structure ProcBar where
  time : String
  open' : ℚ
  high : ℚ
  low : ℚ
  close : ℚ
  volume : Int
deriving DecidableEq, Repr

/-- Rounding to two decimal places, `parseFloat(x.toFixed(2))` (for the
magnitudes this application handles). -/
def toFixed2 (x : ℚ) : ℚ := (⌊x * 100 + 1 / 2⌋ : ℚ) / 100

/-- JavaScript `parseInt` applied to a number: truncation toward zero. -/
def parseIntQ (x : ℚ) : Int := x.num.tdiv x.den

/-- JavaScript falsiness of an optional number: `undefined`/`null` and
`0` are falsy. -/
def jsFalsy : Option ℚ → Bool
  | none => true
  | some x => x == 0

/-- The relevant part of the upstream chart payload
(`result.chart.result[0]`): the `timestamp` array and the parallel OHLCV
arrays of `indicators.quote[0]`, with `null` entries as `none`.
`adjclose` is fetched by the handler but never used (dead data). -/
structure Quote where
  timestamp : List Int
  open' : List (Option ℚ)
  high : List (Option ℚ)
  low : List (Option ℚ)
  close : List (Option ℚ)
  volume : List (Option ℚ)
  adjclose : Option (List (Option ℚ))
deriving DecidableEq, Repr

/-- The falsiness test of the reshaping `map`: an index is dropped when
any of open/high/low/close/volume is missing **or zero** (out-of-range
indices read as `undefined`, hence falsy). -/
def dropRow (q : Quote) (i : Nat) : Bool :=
  jsFalsy (q.open'.getD i none) || jsFalsy (q.high.getD i none) ||
  jsFalsy (q.low.getD i none) || jsFalsy (q.close.getD i none) ||
  jsFalsy (q.volume.getD i none)

/-- The object built for a kept index: ISO-date `time`, two-decimal
prices, integer volume. -/
def mkRow (q : Quote) (i : Nat) (ts : Int) : ProcBar :=
  { time := isoDateOfDays (ts / 86400)
    open' := toFixed2 ((q.open'.getD i none).getD 0)
    high := toFixed2 ((q.high.getD i none).getD 0)
    low := toFixed2 ((q.low.getD i none).getD 0)
    close := toFixed2 ((q.close.getD i none).getD 0)
    volume := parseIntQ ((q.volume.getD i none).getD 0) }

/-- One step of `timestamps.map((timestamp, index) => ...)`: `null` for a
dropped index, the reshaped row otherwise. -/
def reshapeRow (q : Quote) (i : Nat) (ts : Int) : Option ProcBar :=
  if dropRow q i then none else some (mkRow q i ts)

/-- The `timestamps.map(...)` pass followed by `.filter(item => item !== null)`. -/
def processedData (q : Quote) : List ProcBar :=
  (q.timestamp.enum.map (fun p => reshapeRow q p.1 p.2)).reduceOption

/-- An incoming request: the HTTP method and the three query parameters
(`none` models an absent parameter). -/
structure StockReq where
  method : String
  symbol : Option String
  startDate : Option String
  endDate : Option String
deriving DecidableEq, Repr

/-- Rendering of a possibly-absent query parameter inside the template
literal that builds the cache key (`undefined` prints as `"undefined"`). -/
def qstr : Option String → String
  | none => "undefined"
  | some s => s

/-- The cache key `` `${symbol}-${startDate}-${endDate}` ``. -/
def cacheKey (r : StockReq) : String :=
  qstr r.symbol ++ "-" ++ qstr r.startDate ++ "-" ++ qstr r.endDate

/-- The `!symbol` test: absent or empty-string symbol is falsy. -/
def symbolFalsy (r : StockReq) : Bool :=
  match r.symbol with
  | none => true
  | some s => s == ""

/-- Outcome of the single upstream call: a payload whose
`chart.result[0]` may be missing, or a thrown error carrying an optional
HTTP status of the upstream response. -/
inductive Upstream where
  | ok (chart : Option Quote)
  | err (status : Option Nat) (msg : String)
deriving DecidableEq, Repr

/-- The response sent to the client: HTTP status plus the body fields
actually used (`details`, the data array, and the forwarded `error`
message of the generic 500). -/
structure Resp where
  status : Nat
  details : Option String
  data : Option (List ProcBar)
  errMsg : Option String
deriving DecidableEq, Repr

/-- An error response carrying only `details`. -/
def errResp (s : Nat) (d : String) : Resp :=
  { status := s, details := some d, data := none, errMsg := none }

/-- The module-level `Map` cache, as an insertion-ordered association
list (the iteration-order contract of a JS `Map`). -/
abbrev Cache := List (String × List ProcBar)

/-- JS `Map.prototype.set`: update in place if the key exists (keeping its
position), append at the end otherwise. -/
def mapSet (c : Cache) (k : String) (v : List ProcBar) : Cache :=
  match c with
  | [] => [(k, v)]
  | (k', v') :: rest =>
    if k' = k then (k, v) :: rest else (k', v') :: mapSet rest k v

/-- The request handler of `src/pages/api/stockData.js`.  Returns the
response, the cache after the call, and whether the upstream fetch was
issued. -/
def handler (req : StockReq) (upstream : Upstream) (cache : Cache) :
    Resp × Cache × Bool :=
  if req.method ≠ "GET" then (errResp 405 "Method not allowed", cache, false)
  else if symbolFalsy req then (errResp 400 "Symbol is required", cache, false)
  else
    match cache.lookup (cacheKey req) with
    | some v =>
      ({ status := 200, details := none, data := some v, errMsg := none },
       cache, false)
    | none =>
      match upstream with
      | .err status msg =>
        (if status = some 404 then errResp 404 "Stock symbol not found"
         else if status = some 429 then
           errResp 429 "Too many requests. Please try again later."
         else { status := 500, details := some "Error fetching stock data",
                data := none, errMsg := some msg },
         cache, true)
      | .ok none => (errResp 404 "No data available for this symbol", cache, true)
      | .ok (some q) =>
        -- store, then `if (cache.size > 100) cache.delete(cache.keys().next().value)`
        ({ status := 200, details := none,
           data := some (processedData q), errMsg := none },
         if 100 < (mapSet cache (cacheKey req) (processedData q)).length
           then (mapSet cache (cacheKey req) (processedData q)).drop 1
           else mapSet cache (cacheKey req) (processedData q),
         true)

/-! ## The invariant of the aggregation fold -/

/-- Invariant tying the `periodMap` association list to the bars already
processed: keys are distinct, a key is present exactly when some
processed bar maps to it, and every entry holds the one-pass fold
(`specBucket`) of its group. -/
def AggInv (interval : Interval) (processed : List Bar)
    (m : List (String × Bar)) : Prop :=
  (m.map Prod.fst).Nodup ∧
  (∀ k, m.lookup k = none ↔ groupOf interval processed k = []) ∧
  (∀ k b, m.lookup k = some b → b = specBucket (groupOf interval processed k))

/-! ## Concrete inputs used in witnesses and counterexamples -/

/-- The two-bar same-week input of the specification's concrete
scenario. -/
def exBarsC1 : List Bar :=
  [⟨1, 10, 12, 9, 11, 100⟩, ⟨2, 11, 13, 10, 12, 200⟩]

/-- A non-chronological two-bar input whose two weekly buckets are
created in the order opposite to their times. -/
def exBarsC7 : List Bar :=
  [⟨8 * 86400, 1, 1, 1, 1, 1⟩, ⟨0, 2, 2, 2, 2, 2⟩]

/-- A two-index upstream payload whose second index has `volume: 0`. -/
def exQuoteC4 : Quote :=
  { timestamp := [86400, 172800]
    open' := [some 10, some 11]
    high := [some 12, some 13]
    low := [some 9, some 10]
    close := [some 11, some 12]
    volume := [some 100, some 0]
    adjclose := none }

/-- A one-index upstream payload with all fields truthy. -/
def exQuoteOk : Quote :=
  { timestamp := [86400]
    open' := [some 10]
    high := [some 12]
    low := [some 9]
    close := [some 11]
    volume := [some 100]
    adjclose := none }

/-- A well-formed GET request. -/
def exReq : StockReq :=
  ⟨"GET", some "TCS", some "2024-01-01", some "2024-02-01"⟩

/-- A cache already holding 100 distinct keys. -/
def exFullCache : Cache :=
  (List.range 100).map (fun i => (toString i, []))

/-! # Theorems

## Calendar correctness -/

set_option maxHeartbeats 4000000 in
/-- Technical bounds for the year-of-era formula inside `civilFromDays`:
the computed year-of-era lies in `0..399` and the induced day-of-year
offset lies in `0..365`. -/
theorem yoe_doy_bounds (doe : Int) (h0 : 0 ≤ doe) (h1 : doe ≤ 146096) :
    0 ≤ yoeOfDoe doe ∧ yoeOfDoe doe ≤ 399 ∧
    0 ≤ doyOfDoe doe ∧ doyOfDoe doe ≤ 365 := by
  unfold doyOfDoe yoeOfDoe
  have hq0 : 0 ≤ doe / 1460 := by omega
  have hq1 : doe / 1460 ≤ 100 := by omega
  set q := doe / 1460 with hq
  interval_cases q <;>
    first
    | omega
    | (have hr0 : 0 ≤ doe / 36524 := by omega
       have hr1 : doe / 36524 ≤ 4 := by omega
       set r := doe / 36524 with hr
       interval_cases r <;> omega)

/-- Assembly step for the calendar round trip, stated over plain
variables so that the month/day reconstruction is pure linear
arithmetic. -/
theorem civil_assemble (era yoe doy mp d m y : Int)
    (hyoe0 : 0 ≤ yoe) (hyoe1 : yoe ≤ 399)
    (hdoy0 : 0 ≤ doy) (hdoy1 : doy ≤ 365)
    (hmp : mp = (5 * doy + 2) / 153)
    (hd : d = doy - (153 * mp + 2) / 5 + 1)
    (hm : m = mp + (if mp < 10 then 3 else -9))
    (hy : y = yoe + era * 400 + (if m ≤ 2 then 1 else 0)) :
    1 ≤ m ∧ m ≤ 12 ∧ 1 ≤ d ∧ d ≤ 31 ∧
    daysFromCivil y m d =
      era * 146097 + (yoe * 365 + yoe / 4 - yoe / 100 + doy) - 719468 := by
  unfold daysFromCivil
  dsimp only
  split_ifs at hm hy ⊢ <;> subst hm <;> ring_nf <;> omega

set_option maxHeartbeats 1000000 in
/-- The function `civilFromDays` produces an in-range month and day and is a right
inverse of `daysFromCivil`: together these are the characterising
properties of the ECMAScript date accessors. -/
theorem civilFromDays_valid_roundtrip (z : Int) :
    1 ≤ (civilFromDays z).2.1 ∧ (civilFromDays z).2.1 ≤ 12 ∧
    1 ≤ (civilFromDays z).2.2 ∧ (civilFromDays z).2.2 ≤ 31 ∧
    daysFromCivil (civilFromDays z).1 (civilFromDays z).2.1 (civilFromDays z).2.2 = z := by
  have hdoe0 : 0 ≤ doeOf z := by unfold doeOf; omega
  have hdoe1 : doeOf z ≤ 146096 := by unfold doeOf; omega
  obtain ⟨hy0, hy1, hd0, hd1⟩ := yoe_doy_bounds (doeOf z) hdoe0 hdoe1
  have h := civil_assemble ((z + 719468) / 146097) (yoeOfDoe (doeOf z))
    (doyOfDoe (doeOf z)) ((5 * doyOfDoe (doeOf z) + 2) / 153)
    (doyOfDoe (doeOf z) - (153 * ((5 * doyOfDoe (doeOf z) + 2) / 153) + 2) / 5 + 1)
    _ _ hy0 hy1 hd0 hd1 rfl rfl rfl rfl
  obtain ⟨hm1, hm2, hd1', hd2', heq⟩ := h
  refine ⟨hm1, hm2, hd1', hd2', ?_⟩
  rw [show (civilFromDays z).1 = yoeOfDoe (doeOf z) + ((z + 719468) / 146097) * 400 +
      (if ((5 * doyOfDoe (doeOf z) + 2) / 153) +
        (if (5 * doyOfDoe (doeOf z) + 2) / 153 < 10 then 3 else -9) ≤ 2 then 1 else 0) from rfl]
  rw [show (civilFromDays z).2.1 = ((5 * doyOfDoe (doeOf z) + 2) / 153) +
      (if (5 * doyOfDoe (doeOf z) + 2) / 153 < 10 then 3 else -9) from rfl]
  rw [show (civilFromDays z).2.2 = doyOfDoe (doeOf z) -
      (153 * ((5 * doyOfDoe (doeOf z) + 2) / 153) + 2) / 5 + 1 from rfl]
  rw [heq]
  have hdoy_def : doyOfDoe (doeOf z) =
      doeOf z - (365 * yoeOfDoe (doeOf z) + yoeOfDoe (doeOf z) / 4 -
        yoeOfDoe (doeOf z) / 100) := rfl
  unfold doeOf at hdoy_def ⊢
  omega


/-! ## Association-list lemmas -/

theorem lookup_append_none {β : Type} (l₁ l₂ : List (String × β)) (k : String)
    (h : l₁.lookup k = none) : (l₁ ++ l₂).lookup k = l₂.lookup k := by
  induction l₁ with
  | nil => simp
  | cons p rest ih =>
    obtain ⟨k', v⟩ := p
    by_cases hk : k = k'
    · subst hk; simp [List.lookup_cons] at h
    · simp only [List.cons_append, List.lookup_cons, beq_false_of_ne hk] at h ⊢
      exact ih h

theorem lookup_append_some {β : Type} (l₁ l₂ : List (String × β)) (k : String)
    (v : β) (h : l₁.lookup k = some v) : (l₁ ++ l₂).lookup k = some v := by
  induction l₁ with
  | nil => simp at h
  | cons p rest ih =>
    obtain ⟨k', v'⟩ := p
    by_cases hk : k = k'
    · subst hk
      simp only [List.cons_append, List.lookup_cons, beq_self_eq_true] at h ⊢
      exact h
    · simp only [List.cons_append, List.lookup_cons, beq_false_of_ne hk] at h ⊢
      exact ih h

theorem lookup_none_iff_not_mem_keys {β : Type} (l : List (String × β))
    (k : String) : l.lookup k = none ↔ k ∉ l.map Prod.fst := by
  induction l with
  | nil => simp
  | cons p rest ih =>
    obtain ⟨k', v⟩ := p
    by_cases hk : k = k'
    · subst hk; simp [List.lookup_cons]
    · simp [List.lookup_cons, beq_false_of_ne hk, ih, hk]

theorem lookup_of_mem_nodup {β : Type} (l : List (String × β))
    (p : String × β) (hn : (l.map Prod.fst).Nodup) (hp : p ∈ l) :
    l.lookup p.1 = some p.2 := by
  induction l with
  | nil => simp at hp
  | cons q rest ih =>
    obtain ⟨k', v⟩ := q
    simp only [List.map_cons, List.nodup_cons] at hn
    rcases List.mem_cons.mp hp with h | h
    · subst h; simp [List.lookup_cons]
    · have hne : p.1 ≠ k' := by
        intro he
        exact hn.1 (he ▸ List.mem_map.mpr ⟨p, h, rfl⟩)
      simp only [List.lookup_cons, beq_false_of_ne hne]
      exact ih hn.2 h

theorem updateAssoc_lookup (m : List (String × Bar)) (k : String)
    (f : Bar → Bar) (k' : String) : (updateAssoc m k f).lookup k' =
      if k' = k then (m.lookup k).map f else m.lookup k' := by
  induction m with
  | nil => simp [updateAssoc]
  | cons p rest ih =>
    obtain ⟨k₁, b⟩ := p
    unfold updateAssoc
    by_cases h1 : k₁ = k
    · subst h1
      by_cases h2 : k' = k₁
      · subst h2
        simp [List.lookup_cons]
      · simp [List.lookup_cons, beq_false_of_ne h2, h2]
    · have h1' : k ≠ k₁ := Ne.symm h1
      by_cases h2 : k' = k₁
      · subst h2
        simp [List.lookup_cons, h1]
      · simp [List.lookup_cons, h1, beq_false_of_ne h2, beq_false_of_ne h1', ih]

theorem updateAssoc_keys (m : List (String × Bar)) (k : String)
    (f : Bar → Bar) : (updateAssoc m k f).map Prod.fst = m.map Prod.fst := by
  induction m with
  | nil => rfl
  | cons p rest ih =>
    obtain ⟨k₁, b⟩ := p
    unfold updateAssoc
    by_cases h1 : k₁ = k <;> simp [h1, ih]

/-! ## `specBucket` and `groupOf` lemmas -/

theorem specBucket_singleton (b : Bar) : specBucket [b] = initBucket b := rfl

theorem specBucket_concat (g : List Bar) (x : Bar) (h : g ≠ []) :
    specBucket (g ++ [x]) = mergeBucket (specBucket g) x := by
  cases g with
  | nil => exact absurd rfl h
  | cons b rest =>
    simp [specBucket, mergeBucket, List.foldl_append, List.getLastD_concat]

theorem groupOf_append (interval : Interval) (l : List Bar) (x : Bar)
    (k : String) : groupOf interval (l ++ [x]) k =
      groupOf interval l k ++ (if periodKey interval x = k then [x] else []) := by
  simp only [groupOf, List.filter_append, List.filter_cons, List.filter_nil]
  by_cases h : periodKey interval x = k <;> simp [h]

/-! ## The aggregation fold maintains its invariant -/

theorem aggInv_nil (interval : Interval) : AggInv interval [] [] := by
  refine ⟨List.nodup_nil, fun k => ?_, fun k b h => by simp at h⟩
  simp [groupOf]

theorem stepBar_eq_append (interval : Interval) (m : List (String × Bar))
    (x : Bar) (hm : m.lookup (periodKey interval x) = none) :
    stepBar interval m x = m ++ [(periodKey interval x, initBucket x)] := by
  unfold stepBar; rw [hm]

theorem stepBar_eq_update (interval : Interval) (m : List (String × Bar))
    (x : Bar) (b0 : Bar) (hm : m.lookup (periodKey interval x) = some b0) :
    stepBar interval m x =
      updateAssoc m (periodKey interval x) (fun b => mergeBucket b x) := by
  unfold stepBar; rw [hm]

theorem stepBar_aggInv (interval : Interval) (processed : List Bar)
    (m : List (String × Bar)) (x : Bar) (h : AggInv interval processed m) :
    AggInv interval (processed ++ [x]) (stepBar interval m x) := by
  obtain ⟨hnd, hnone, hsome⟩ := h
  cases hm : m.lookup (periodKey interval x) with
  | none =>
    rw [stepBar_eq_append interval m x hm]
    have hkey : periodKey interval x ∉ m.map Prod.fst :=
      (lookup_none_iff_not_mem_keys m _).mp hm
    have hgrp : groupOf interval processed (periodKey interval x) = [] :=
      (hnone _).mp hm
    refine ⟨?_, fun k => ?_, fun k b hb => ?_⟩
    · simp [List.nodup_append, hnd, hkey]
    · rw [groupOf_append]
      by_cases hk : k = periodKey interval x
      · subst hk
        rw [lookup_append_none m _ _ hm]
        simp [hgrp]
      · have : periodKey interval x ≠ k := Ne.symm hk
        constructor
        · intro hlk
          have hmk : m.lookup k = none := by
            by_contra hne
            obtain ⟨v, hv⟩ := Option.ne_none_iff_exists'.mp hne
            rw [lookup_append_some m _ _ _ hv] at hlk
            exact Option.noConfusion hlk
          simp [this, (hnone k).mp hmk]
        · intro hg
          simp only [this, if_false, List.append_nil] at hg
          rw [lookup_append_none m _ _ ((hnone k).mpr hg)]
          simp [List.lookup_cons, beq_false_of_ne hk]
    · rw [groupOf_append]
      by_cases hk : k = periodKey interval x
      · subst hk
        rw [lookup_append_none m _ _ hm] at hb
        simp only [List.lookup_cons, beq_self_eq_true] at hb
        cases hb
        simp [hgrp, specBucket_singleton]
      · cases hmk : m.lookup k with
        | none =>
          rw [lookup_append_none m _ _ hmk] at hb
          simp [List.lookup_cons, beq_false_of_ne hk] at hb
        | some v =>
          rw [lookup_append_some m _ _ _ hmk] at hb
          cases hb
          simp [Ne.symm hk, hsome k b hmk]
  | some b0 =>
    rw [stepBar_eq_update interval m x b0 hm]
    have hgrp : groupOf interval processed (periodKey interval x) ≠ [] := by
      intro hg
      rw [(hnone _).mpr hg] at hm
      exact Option.noConfusion hm
    refine ⟨?_, fun k => ?_, fun k b hb => ?_⟩
    · rw [updateAssoc_keys]; exact hnd
    · rw [groupOf_append, updateAssoc_lookup]
      by_cases hk : k = periodKey interval x
      · subst hk
        simp [hm, hgrp]
      · simp [hk, hnone k, Ne.symm hk]
    · rw [groupOf_append]
      rw [updateAssoc_lookup] at hb
      by_cases hk : k = periodKey interval x
      · subst hk
        rw [hm] at hb
        simp only [if_pos rfl, Option.map_some'] at hb
        cases hb
        rw [if_pos rfl, specBucket_concat _ _ hgrp, hsome _ b0 hm]
      · rw [if_neg hk] at hb
        simp [Ne.symm hk, hsome k b hb]

theorem foldl_stepBar_aggInv (interval : Interval) (l : List Bar) :
    ∀ (processed : List Bar) (m : List (String × Bar)),
      AggInv interval processed m →
      AggInv interval (processed ++ l) (l.foldl (stepBar interval) m) := by
  induction l with
  | nil => intro processed m h; simpa using h
  | cons x rest ih =>
    intro processed m h
    have h' := ih (processed ++ [x]) (stepBar interval m x)
      (stepBar_aggInv interval processed m x h)
    simpa using h'

/-! ## Conservation lemmas for the aggregation fold -/

theorem maximum_concat (l : List ℚ) (x : ℚ) :
    (l ++ [x]).maximum = l.maximum ⊔ ↑x := by
  induction l with
  | nil => simp
  | cons a rest ih => simp [List.maximum_cons, ih, sup_assoc]

theorem minimum_concat (l : List ℚ) (x : ℚ) :
    (l ++ [x]).minimum = l.minimum ⊓ ↑x := by
  induction l with
  | nil => simp
  | cons a rest ih => simp [List.minimum_cons, ih, inf_assoc]

theorem maximum_perm {l₁ l₂ : List ℚ} (h : l₁.Perm l₂) :
    l₁.maximum = l₂.maximum := by
  induction h with
  | nil => rfl
  | cons x _ ih => simp [List.maximum_cons, ih]
  | swap x y l => simp only [List.maximum_cons]; rw [sup_left_comm]
  | trans _ _ ih₁ ih₂ => rw [ih₁, ih₂]

theorem minimum_perm {l₁ l₂ : List ℚ} (h : l₁.Perm l₂) :
    l₁.minimum = l₂.minimum := by
  induction h with
  | nil => rfl
  | cons x _ ih => simp [List.minimum_cons, ih]
  | swap x y l => simp only [List.minimum_cons]; rw [inf_left_comm]
  | trans _ _ ih₁ ih₂ => rw [ih₁, ih₂]

theorem updateAssoc_vol_sum (m : List (String × Bar)) (k : String) (x : Bar)
    (h : (m.lookup k).isSome) :
    ((updateAssoc m k (fun b => mergeBucket b x)).map (fun p => p.2.volume)).sum
      = ((m.map (fun p => p.2.volume)).sum) + x.volume := by
  induction m with
  | nil => simp at h
  | cons p rest ih =>
    obtain ⟨k₁, b⟩ := p
    unfold updateAssoc
    by_cases h1 : k₁ = k
    · subst h1
      simp [mergeBucket]
      ring
    · have h' : (rest.lookup k).isSome := by
        simpa [List.lookup_cons, beq_false_of_ne (Ne.symm h1)] using h
      simp [h1, ih h']
      ring

theorem updateAssoc_high_max (m : List (String × Bar)) (k : String) (x : Bar)
    (h : (m.lookup k).isSome) :
    ((updateAssoc m k (fun b => mergeBucket b x)).map (fun p => p.2.high)).maximum
      = ((m.map (fun p => p.2.high)).maximum) ⊔ ↑x.high := by
  induction m with
  | nil => simp at h
  | cons p rest ih =>
    obtain ⟨k₁, b⟩ := p
    unfold updateAssoc
    by_cases h1 : k₁ = k
    · subst h1
      simp only [eq_self_iff_true, if_true, List.map_cons, List.maximum_cons,
        mergeBucket]
      rw [WithBot.coe_max, sup_right_comm]
    · have h' : (rest.lookup k).isSome := by
        simpa [List.lookup_cons, beq_false_of_ne (Ne.symm h1)] using h
      simp only [if_neg h1, List.map_cons, List.maximum_cons, ih h', sup_assoc]

theorem updateAssoc_low_min (m : List (String × Bar)) (k : String) (x : Bar)
    (h : (m.lookup k).isSome) :
    ((updateAssoc m k (fun b => mergeBucket b x)).map (fun p => p.2.low)).minimum
      = ((m.map (fun p => p.2.low)).minimum) ⊓ ↑x.low := by
  induction m with
  | nil => simp at h
  | cons p rest ih =>
    obtain ⟨k₁, b⟩ := p
    unfold updateAssoc
    by_cases h1 : k₁ = k
    · subst h1
      simp only [eq_self_iff_true, if_true, List.map_cons, List.minimum_cons,
        mergeBucket]
      rw [WithTop.coe_min, inf_right_comm]
    · have h' : (rest.lookup k).isSome := by
        simpa [List.lookup_cons, beq_false_of_ne (Ne.symm h1)] using h
      simp only [if_neg h1, List.map_cons, List.minimum_cons, ih h', inf_assoc]

theorem foldl_vol_sum (interval : Interval) (l : List Bar) :
    ∀ m, ((l.foldl (stepBar interval) m).map (fun p => p.2.volume)).sum
      = ((m.map (fun p => p.2.volume)).sum) + (l.map Bar.volume).sum := by
  induction l with
  | nil => intro m; simp
  | cons x rest ih =>
    intro m
    rw [List.foldl_cons, ih]
    have hstep : ((stepBar interval m x).map (fun p => p.2.volume)).sum
        = ((m.map (fun p => p.2.volume)).sum) + x.volume := by
      cases hm : m.lookup (periodKey interval x) with
      | none => rw [stepBar_eq_append _ _ _ hm]; simp [initBucket]
      | some b0 =>
        rw [stepBar_eq_update _ _ _ _ hm]
        exact updateAssoc_vol_sum _ _ _ (by simp [hm])
    rw [hstep]
    simp
    ring

theorem foldl_high_max (interval : Interval) (l : List Bar) :
    ∀ m, ((l.foldl (stepBar interval) m).map (fun p => p.2.high)).maximum
      = ((m.map (fun p => p.2.high)).maximum) ⊔ (l.map Bar.high).maximum := by
  induction l with
  | nil => intro m; simp
  | cons x rest ih =>
    intro m
    rw [List.foldl_cons, ih]
    have hstep : ((stepBar interval m x).map (fun p => p.2.high)).maximum
        = ((m.map (fun p => p.2.high)).maximum) ⊔ ↑x.high := by
      cases hm : m.lookup (periodKey interval x) with
      | none =>
        rw [stepBar_eq_append _ _ _ hm]
        simp [initBucket, maximum_concat]
      | some b0 =>
        rw [stepBar_eq_update _ _ _ _ hm]
        exact updateAssoc_high_max _ _ _ (by simp [hm])
    rw [hstep, List.map_cons, List.maximum_cons, sup_assoc]

theorem foldl_low_min (interval : Interval) (l : List Bar) :
    ∀ m, ((l.foldl (stepBar interval) m).map (fun p => p.2.low)).minimum
      = ((m.map (fun p => p.2.low)).minimum) ⊓ (l.map Bar.low).minimum := by
  induction l with
  | nil => intro m; simp
  | cons x rest ih =>
    intro m
    rw [List.foldl_cons, ih]
    have hstep : ((stepBar interval m x).map (fun p => p.2.low)).minimum
        = ((m.map (fun p => p.2.low)).minimum) ⊓ ↑x.low := by
      cases hm : m.lookup (periodKey interval x) with
      | none =>
        rw [stepBar_eq_append _ _ _ hm]
        simp [initBucket, minimum_concat]
      | some b0 =>
        rw [stepBar_eq_update _ _ _ _ hm]
        exact updateAssoc_low_min _ _ _ (by simp [hm])
    rw [hstep, List.map_cons, List.minimum_cons, inf_assoc]

/-- Conservation of volume sum, maximum high, and minimum low through
the aggregation, for any non-daily interval. -/
theorem aggregateConservation (bars : List Bar) (interval : Interval)
    (hiv : interval ≠ Interval.daily) :
    ((aggregateData bars interval).map Bar.volume).sum
        = (bars.map Bar.volume).sum ∧
    ((aggregateData bars interval).map Bar.high).maximum
        = (bars.map Bar.high).maximum ∧
    ((aggregateData bars interval).map Bar.low).minimum
        = (bars.map Bar.low).minimum := by
  have hform : aggregateData bars interval
      = ((bars.foldl (stepBar interval) []).map Prod.snd).insertionSort timeLE := by
    simp [aggregateData, hiv]
  have hperm := List.perm_insertionSort timeLE
    ((bars.foldl (stepBar interval) []).map Prod.snd)
  refine ⟨?_, ?_, ?_⟩
  · rw [hform, (hperm.map Bar.volume).sum_eq, List.map_map]
    have := foldl_vol_sum interval bars []
    simpa using this
  · rw [hform, maximum_perm (hperm.map Bar.high), List.map_map]
    have := foldl_high_max interval bars []
    simpa using this
  · rw [hform, minimum_perm (hperm.map Bar.low), List.map_map]
    have := foldl_low_min interval bars []
    simpa using this

/-! ## Claim theorems: the aggregator -/

unseal Rat.add Rat.mul Rat.inv in
/-- C1: for weekly/monthly aggregation, every output bucket is the
one-pass fold of the bars assigned to its key, in input order: `time`
and `open` of the first such bar, `close` of the last, running max of
highs, running min of lows, running sum of volumes (`specBucket`); and
the concrete two-bar same-week input yields the single bucket
`{time 1, open 10, high 13, low 9, close 12, volume 300}`. -/
theorem aggregate_bucket_contents :
    (∀ (bars : List Bar) (interval : Interval) (bucket : Bar),
      interval = Interval.weekly ∨ interval = Interval.monthly →
      bucket ∈ aggregateData bars interval →
      ∃ k, groupOf interval bars k ≠ [] ∧
        bucket = specBucket (groupOf interval bars k)) ∧
    aggregateData exBarsC1 Interval.weekly = [⟨1, 10, 13, 9, 12, 300⟩] := by
  constructor
  · intro bars interval bucket hiv hb
    have hInv := foldl_stepBar_aggInv interval bars [] [] (aggInv_nil interval)
    rw [List.nil_append] at hInv
    obtain ⟨hnd, hnone, hsome⟩ := hInv
    have hiv' : interval ≠ Interval.daily := by
      rcases hiv with h | h <;> subst h <;> simp
    have hform : aggregateData bars interval
        = ((bars.foldl (stepBar interval) []).map Prod.snd).insertionSort timeLE := by
      simp [aggregateData, hiv']
    rw [hform] at hb
    have hmem : bucket ∈ (bars.foldl (stepBar interval) []).map Prod.snd :=
      (List.perm_insertionSort timeLE _).mem_iff.mp hb
    obtain ⟨p, hpmem, hp⟩ := List.mem_map.mp hmem
    have hlk := lookup_of_mem_nodup _ p hnd hpmem
    refine ⟨p.1, ?_, by rw [← hp, hsome p.1 p.2 hlk]⟩
    intro hg
    rw [(hnone p.1).mpr hg] at hlk
    exact Option.noConfusion hlk
  · decide

unseal Rat.add Rat.mul Rat.inv in
/-- Witness for `aggregate_bucket_contents` at the concrete two-bar
input. -/
theorem aggregate_bucket_contents_witness :
    ∃ k, groupOf Interval.weekly exBarsC1 k ≠ [] ∧
      (⟨1, 10, 13, 9, 12, 300⟩ : Bar)
        = specBucket (groupOf Interval.weekly exBarsC1 k) :=
  aggregate_bucket_contents.1 exBarsC1 Interval.weekly _ (Or.inl rfl) (by decide)

/-- C2: weekly and monthly aggregation conserve the total volume, the
maximum high and the minimum low of the input. -/
theorem aggregate_conserves_totals (bars : List Bar) :
    (((aggregateData bars Interval.weekly).map Bar.volume).sum
        = (bars.map Bar.volume).sum ∧
      ((aggregateData bars Interval.weekly).map Bar.high).maximum
        = (bars.map Bar.high).maximum ∧
      ((aggregateData bars Interval.weekly).map Bar.low).minimum
        = (bars.map Bar.low).minimum) ∧
    (((aggregateData bars Interval.monthly).map Bar.volume).sum
        = (bars.map Bar.volume).sum ∧
      ((aggregateData bars Interval.monthly).map Bar.high).maximum
        = (bars.map Bar.high).maximum ∧
      ((aggregateData bars Interval.monthly).map Bar.low).minimum
        = (bars.map Bar.low).minimum) :=
  ⟨aggregateConservation bars Interval.weekly (by simp),
   aggregateConservation bars Interval.monthly (by simp)⟩

/-- C9: daily aggregation is the identity. -/
theorem aggregate_daily_identity (bars : List Bar) :
    aggregateData bars Interval.daily = bars := rfl

/-- C6 (counterexample): for a bar lying on Monday 1970-01-05 the weekly
key is `"1970-01-04"` (a Sunday), not the ISO date of the Monday of that
week. -/
theorem weekly_key_monday_counterexample :
    ¬ periodKeyWeekly (4 * 86400)
        = isoDateOfDays (mondayOfWeek (4 * 86400 / 86400)) := by decide

/-- C6 (amended): the weekly bucket key is the ISO date of the *Sunday*
on or before the bar's date (the code subtracts `getDay()`, which counts
from Sunday = 0), and the monthly key is
`` `${year}-${zero-padded month}` ``. -/
theorem period_keys_formula (t : Int) :
    periodKeyWeekly t = isoDateOfDays (sundayOfWeek (t / 86400)) ∧
    periodKeyMonthly t = toString (civilFromDays (t / 86400)).1 ++ "-" ++
      padZeros 2 (toString (civilFromDays (t / 86400)).2.1.toNat) := by
  refine ⟨?_, rfl⟩
  unfold periodKeyWeekly sundayOfWeek
  congr 1
  have h := (civilFromDays_valid_roundtrip (t / 86400)).2.2.2.2
  unfold daysFromCivil at h ⊢
  dsimp only at h ⊢
  split_ifs at h ⊢ <;> omega

/-- C7 (counterexample): on a non-chronological input the sorted output
of `aggregateData` differs from the first-seen-key order that
`aggregateDataPart003` produces. -/
theorem aggregate_order_counterexample :
    ¬ aggregateData exBarsC7 Interval.weekly
        = aggregateDataPart003 exBarsC7 Interval.weekly := by decide

/-- C7 (amended): for weekly/monthly intervals the output of
`aggregateData` is a permutation of the first-seen-key bucket list (the
`part_003` variant) arranged in nondecreasing bucket time; the two
coincide only when the first-seen order is already chronological. -/
theorem aggregate_output_sorted (bars : List Bar) (interval : Interval)
    (hiv : interval = Interval.weekly ∨ interval = Interval.monthly) :
    (aggregateData bars interval).Perm (aggregateDataPart003 bars interval) ∧
    List.Sorted timeLE (aggregateData bars interval) := by
  have hiv' : interval ≠ Interval.daily := by
    rcases hiv with h | h <;> subst h <;> simp
  constructor
  · simp only [aggregateData, aggregateDataPart003, if_neg hiv']
    exact List.perm_insertionSort timeLE _
  · simp only [aggregateData, if_neg hiv']
    exact List.sorted_insertionSort timeLE _

/-- Witness for `aggregate_output_sorted` at the concrete
non-chronological input. -/
theorem aggregate_output_sorted_witness :
    (aggregateData exBarsC7 Interval.weekly).Perm
        (aggregateDataPart003 exBarsC7 Interval.weekly) ∧
    List.Sorted timeLE (aggregateData exBarsC7 Interval.weekly) :=
  aggregate_output_sorted exBarsC7 Interval.weekly (Or.inl rfl)

/-! ## Branch equations of the handler -/

theorem handler_not_get (req : StockReq) (up : Upstream) (cache : Cache)
    (h : req.method ≠ "GET") :
    handler req up cache = (errResp 405 "Method not allowed", cache, false) := by
  unfold handler; rw [if_pos h]

theorem handler_bad_symbol (req : StockReq) (up : Upstream) (cache : Cache)
    (h : req.method = "GET") (hs : symbolFalsy req = true) :
    handler req up cache = (errResp 400 "Symbol is required", cache, false) := by
  unfold handler; rw [if_neg (by simp [h]), if_pos hs]

theorem handler_cache_hit (req : StockReq) (up : Upstream) (cache : Cache)
    (v : List ProcBar) (h : req.method = "GET") (hs : symbolFalsy req = false)
    (hv : cache.lookup (cacheKey req) = some v) :
    handler req up cache =
      ({ status := 200, details := none, data := some v, errMsg := none },
       cache, false) := by
  unfold handler; rw [if_neg (by simp [h]), if_neg (by simp [hs]), hv]

theorem handler_upstream_err (req : StockReq) (cache : Cache)
    (status : Option Nat) (msg : String) (h : req.method = "GET")
    (hs : symbolFalsy req = false) (hv : cache.lookup (cacheKey req) = none) :
    handler req (Upstream.err status msg) cache =
      (if status = some 404 then errResp 404 "Stock symbol not found"
       else if status = some 429 then
         errResp 429 "Too many requests. Please try again later."
       else { status := 500, details := some "Error fetching stock data",
              data := none, errMsg := some msg },
       cache, true) := by
  unfold handler; rw [if_neg (by simp [h]), if_neg (by simp [hs]), hv]

theorem handler_no_chart (req : StockReq) (cache : Cache)
    (h : req.method = "GET") (hs : symbolFalsy req = false)
    (hv : cache.lookup (cacheKey req) = none) :
    handler req (Upstream.ok none) cache =
      (errResp 404 "No data available for this symbol", cache, true) := by
  unfold handler; rw [if_neg (by simp [h]), if_neg (by simp [hs]), hv]

theorem handler_upstream_ok (req : StockReq) (cache : Cache) (q : Quote)
    (h : req.method = "GET") (hs : symbolFalsy req = false)
    (hv : cache.lookup (cacheKey req) = none) :
    handler req (Upstream.ok (some q)) cache =
      ({ status := 200, details := none,
         data := some (processedData q), errMsg := none },
       if 100 < (mapSet cache (cacheKey req) (processedData q)).length
         then (mapSet cache (cacheKey req) (processedData q)).drop 1
         else mapSet cache (cacheKey req) (processedData q),
       true) := by
  unfold handler; rw [if_neg (by simp [h]), if_neg (by simp [hs]), hv]

/-! ## `mapSet` lemmas -/

theorem mapSet_lookup_none_eq (c : Cache) (k : String) (v : List ProcBar)
    (h : c.lookup k = none) : mapSet c k v = c ++ [(k, v)] := by
  induction c with
  | nil => rfl
  | cons p rest ih =>
    obtain ⟨k₁, v₁⟩ := p
    by_cases h1 : k₁ = k
    · subst h1; simp [List.lookup_cons] at h
    · have h' : rest.lookup k = none := by
        simpa [List.lookup_cons, beq_false_of_ne (Ne.symm h1)] using h
      unfold mapSet
      rw [if_neg h1, ih h']
      rfl

theorem mapSet_length_le (c : Cache) (k : String) (v : List ProcBar) :
    (mapSet c k v).length ≤ c.length + 1 := by
  induction c with
  | nil => simp [mapSet]
  | cons p rest ih =>
    obtain ⟨k₁, v₁⟩ := p
    unfold mapSet
    by_cases h1 : k₁ = k
    · rw [if_pos h1]; simp
    · rw [if_neg h1]; simpa using Nat.succ_le_succ ih

/-- After a miss-store, the stored key survives the (possible) eviction
of the oldest entry and maps to the stored value. -/
theorem lookup_after_store (cache : Cache) (k : String) (pd : List ProcBar)
    (hv : cache.lookup k = none) :
    (if 100 < (mapSet cache k pd).length
      then (mapSet cache k pd).drop 1 else mapSet cache k pd).lookup k
      = some pd := by
  rw [mapSet_lookup_none_eq _ _ _ hv]
  split_ifs with h
  · cases cache with
    | nil => simp at h
    | cons p rest =>
      obtain ⟨k₁, v₁⟩ := p
      have h' : rest.lookup k = none := by
        by_cases h1 : k₁ = k
        · subst h1; simp [List.lookup_cons] at hv
        · simpa [List.lookup_cons, beq_false_of_ne (Ne.symm h1)] using hv
      simp only [List.cons_append, List.drop_one, List.tail_cons]
      rw [lookup_append_none rest _ _ h']
      simp [List.lookup_cons]
  · rw [lookup_append_none cache _ _ hv]
    simp [List.lookup_cons]

/-! ## Reshaping lemma (map-to-null then filter-nulls) -/

theorem map_filter_reduceOption {α β : Type} (l : List α) (c : α → Bool)
    (g : α → β) :
    ((l.map (fun a => if c a then none else some (g a))).reduceOption)
      = (l.filter (fun a => !(c a))).map g := by
  induction l with
  | nil => rfl
  | cons a rest ih =>
    by_cases h : c a <;>
      simp [h, ih, List.reduceOption_cons_of_some, List.reduceOption_cons_of_none]

/-! ## Claim theorems: the proxy -/

unseal Rat.add Rat.mul Rat.inv in
/-- C4: the reshaping drops exactly the indices at which any of
open/high/low/close/volume is falsy; in particular the concrete payload
whose second index has `volume: 0` keeps only its first index. -/
theorem processed_drops_falsy :
    (∀ q : Quote, processedData q
        = (q.timestamp.enum.filter (fun p => !(dropRow q p.1))).map
            (fun p => mkRow q p.1 p.2)) ∧
    exQuoteC4.volume.getD 1 none = some 0 ∧
    processedData exQuoteC4 = [mkRow exQuoteC4 0 86400] := by
  refine ⟨fun q => ?_, by decide, by decide⟩
  unfold processedData
  have hfun : (fun p : Nat × Int => reshapeRow q p.1 p.2)
      = fun p : Nat × Int =>
          if dropRow q p.1 then none else some (mkRow q p.1 p.2) := by
    funext p; rfl
  rw [hfun]
  exact map_filter_reduceOption q.timestamp.enum
    (fun p => dropRow q p.1) (fun p => mkRow q p.1 p.2)

/-- C5: if a request produced a 200 response, an identical follow-up
request hits the cache: it returns 200 with the very array stored by the
first call, leaves the cache unchanged, and issues no upstream fetch. -/
theorem cached_second_request (req : StockReq) (up1 up2 : Upstream)
    (cache : Cache) (h200 : (handler req up1 cache).1.status = 200) :
    handler req up2 (handler req up1 cache).2.1
      = ((handler req up1 cache).1, (handler req up1 cache).2.1, false) := by
  by_cases hm : req.method = "GET"
  · by_cases hs : symbolFalsy req = true
    · rw [handler_bad_symbol req up1 cache hm hs] at h200
      simp [errResp] at h200
    · have hs' : symbolFalsy req = false := by simpa using hs
      cases hv : cache.lookup (cacheKey req) with
      | some v =>
        rw [handler_cache_hit req up1 cache v hm hs' hv]
        exact handler_cache_hit req up2 cache v hm hs' hv
      | none =>
        cases up1 with
        | err st m1 =>
          rw [handler_upstream_err req cache st m1 hm hs' hv] at h200
          split_ifs at h200 <;> simp [errResp] at h200
        | ok chart =>
          cases chart with
          | none =>
            rw [handler_no_chart req cache hm hs' hv] at h200
            simp [errResp] at h200
          | some q =>
            rw [handler_upstream_ok req cache q hm hs' hv]
            exact handler_cache_hit req up2 _ (processedData q) hm hs'
              (lookup_after_store cache (cacheKey req) (processedData q) hv)
  · rw [handler_not_get req up1 cache hm] at h200
    simp [errResp] at h200

unseal Rat.add Rat.mul Rat.inv in
/-- Witness for `cached_second_request`: a miss followed by an identical
request on an initially empty cache. -/
theorem cached_second_request_witness :
    handler exReq (Upstream.err none "down")
        (handler exReq (Upstream.ok (some exQuoteOk)) []).2.1
      = ((handler exReq (Upstream.ok (some exQuoteOk)) []).1,
         (handler exReq (Upstream.ok (some exQuoteOk)) []).2.1, false) :=
  cached_second_request exReq (Upstream.ok (some exQuoteOk))
    (Upstream.err none "down") [] (by decide)

/-- C3: storing under a fresh key adds at most one entry (so the cache
never exceeds 101 entries mid-request), the handler always leaves at
most 100 entries behind, and inserting the 101st distinct key evicts
exactly the oldest entry (the head of the insertion order). -/
theorem cache_eviction_bound (req : StockReq) (up : Upstream) (cache : Cache)
    (v : List ProcBar) (q : Quote) (hlen : cache.length ≤ 100) :
    (mapSet cache (cacheKey req) v).length ≤ 101 ∧
    (handler req up cache).2.1.length ≤ 100 ∧
    (cache.length = 100 → cache.lookup (cacheKey req) = none →
      req.method = "GET" → symbolFalsy req = false →
      up = Upstream.ok (some q) →
      (handler req up cache).2.1
        = cache.drop 1 ++ [(cacheKey req, processedData q)]) := by
  refine ⟨le_trans (mapSet_length_le cache _ v) (by omega), ?_, ?_⟩
  · by_cases hm : req.method = "GET"
    · by_cases hs : symbolFalsy req = true
      · rw [handler_bad_symbol req up cache hm hs]; simpa using hlen
      · have hs' : symbolFalsy req = false := by simpa using hs
        cases hv : cache.lookup (cacheKey req) with
        | some v' =>
          rw [handler_cache_hit req up cache v' hm hs' hv]; simpa using hlen
        | none =>
          cases up with
          | err st m1 =>
            rw [handler_upstream_err req cache st m1 hm hs' hv]
            simpa using hlen
          | ok chart =>
            cases chart with
            | none => rw [handler_no_chart req cache hm hs' hv]; simpa using hlen
            | some q' =>
              rw [handler_upstream_ok req cache q' hm hs' hv]
              have hc1 := mapSet_length_le cache (cacheKey req) (processedData q')
              dsimp only
              split_ifs with hgt
              · rw [List.length_drop]; omega
              · omega
    · rw [handler_not_get req up cache hm]; simpa using hlen
  · intro h100 hv hm hs' hup
    subst hup
    rw [handler_upstream_ok req cache q hm hs' hv]
    dsimp only
    rw [mapSet_lookup_none_eq _ _ _ hv,
      if_pos (by simp [List.length_append, h100])]
    cases cache with
    | nil => simp at h100
    | cons p rest => simp

/-- Witness for `cache_eviction_bound`: inserting a 101st distinct key
into a 100-entry cache evicts exactly the first-inserted key. -/
theorem cache_eviction_bound_witness :
    exFullCache.length ≤ 100 ∧
    (handler exReq (Upstream.ok (some exQuoteOk)) exFullCache).2.1
      = exFullCache.drop 1 ++ [(cacheKey exReq, processedData exQuoteOk)] :=
  ⟨by decide,
   (cache_eviction_bound exReq (Upstream.ok (some exQuoteOk)) exFullCache []
       exQuoteOk (by decide)).2.2 (by decide) (by decide) rfl (by decide) rfl⟩

/-- C8: a non-GET request gets a 405 with `details: 'Method not
allowed'`, a GET request without a `symbol` parameter gets a 400 with
`details: 'Symbol is required'`; in both cases the cache is untouched
and no upstream fetch is issued. -/
theorem request_validation (req : StockReq) (up : Upstream) (cache : Cache) :
    (req.method ≠ "GET" →
      handler req up cache = (errResp 405 "Method not allowed", cache, false)) ∧
    (req.method = "GET" → req.symbol = none →
      handler req up cache = (errResp 400 "Symbol is required", cache, false)) := by
  refine ⟨fun h => handler_not_get req up cache h, fun hm hsym => ?_⟩
  exact handler_bad_symbol req up cache hm (by simp [symbolFalsy, hsym])

/-- Witness for `request_validation`: a POST request and a GET request
with no symbol. -/
theorem request_validation_witness :
    handler ⟨"POST", some "TCS", none, none⟩ (Upstream.ok none) []
      = (errResp 405 "Method not allowed", [], false) ∧
    handler ⟨"GET", none, none, none⟩ (Upstream.ok none) []
      = (errResp 400 "Symbol is required", [], false) :=
  ⟨(request_validation ⟨"POST", some "TCS", none, none⟩ (Upstream.ok none) []).1
      (by decide),
   (request_validation ⟨"GET", none, none, none⟩ (Upstream.ok none) []).2 rfl rfl⟩

/-- C10: every error response (status 400, 404, 405, 429 or 500) leaves
the cache exactly as it was. -/
theorem error_response_cache_unchanged (req : StockReq) (up : Upstream)
    (cache : Cache)
    (h : (handler req up cache).1.status = 400 ∨
      (handler req up cache).1.status = 404 ∨
      (handler req up cache).1.status = 405 ∨
      (handler req up cache).1.status = 429 ∨
      (handler req up cache).1.status = 500) :
    (handler req up cache).2.1 = cache := by
  by_cases hm : req.method = "GET"
  · by_cases hs : symbolFalsy req = true
    · rw [handler_bad_symbol req up cache hm hs]
    · have hs' : symbolFalsy req = false := by simpa using hs
      cases hv : cache.lookup (cacheKey req) with
      | some v =>
        rw [handler_cache_hit req up cache v hm hs' hv] at h
        simp at h
      | none =>
        cases up with
        | err st m1 => rw [handler_upstream_err req cache st m1 hm hs' hv]
        | ok chart =>
          cases chart with
          | none => rw [handler_no_chart req cache hm hs' hv]
          | some q =>
            rw [handler_upstream_ok req cache q hm hs' hv] at h
            simp at h
  · rw [handler_not_get req up cache hm]

/-- Witness for `error_response_cache_unchanged` at a concrete 405. -/
theorem error_response_cache_unchanged_witness :
    (handler ⟨"POST", some "X", none, none⟩ (Upstream.ok none) []).2.1 = [] :=
  error_response_cache_unchanged ⟨"POST", some "X", none, none⟩
    (Upstream.ok none) [] (Or.inr (Or.inr (Or.inl (by decide))))

end StockChart
